import Mathlib

/-!
Verification development for the PureMVC TypeScript standard framework core
(`src/bin/cjs/core/Controller.js`, which bundles the compiled `Controller`,
`Model` and `View` classes, and `src/bin/cjs/patterns/observer/Notifier.js`,
which bundles `Notifier` and `Facade`).

The registries (`observerMap`, `mediatorMap`, `commandMap`, `proxyMap`) are
JavaScript objects keyed by strings; we embed them as association lists with
the same lookup / overwrite / delete semantics.  Lookups of absent keys give
`none` where the JavaScript yields `undefined`; an operation that would throw
a `TypeError` on `undefined` (reading `.length` of an absent observer list)
is embedded as returning `none` for the whole operation.

Collaborator callbacks (`onRegister`, `onRemove`, `handleNotification`,
`command.execute`, `listNotificationInterests`) are external application
code.  Their invocations are recorded in an event log; the bodies of
`handleNotification` and `command.execute` are outside the core and are
modelled as pure event emissions (for broadcast claims), while
`View.notifyObservers` is additionally proved for an arbitrary dispatch
function, covering handlers that mutate the registries mid-broadcast.

The `Observer` class implementation itself is not among the provided source
files (only its callers and its type declaration are); its two methods are
modelled from the spec, as marked on the definitions concerned.
-/

namespace PureMVC

/-- Lookup in a JavaScript-object-like association list: `m[k]`,
`none` standing for `undefined`. -/
def mget {κ : Type} {α : Type} [DecidableEq κ] (m : List (κ × α)) (k : κ) : Option α :=
  match m with
  | [] => none
  | (k', v) :: rest => if k' = k then some v else mget rest k

/-- Assignment `m[k] = v`: overwrite the binding if the key is present,
otherwise add it. -/
def mset {κ : Type} {α : Type} [DecidableEq κ] (m : List (κ × α)) (k : κ) (v : α) :
    List (κ × α) :=
  match m with
  | [] => [(k, v)]
  | (k', v') :: rest => if k' = k then (k, v) :: rest else (k', v') :: mset rest k v

/-- Deletion `delete m[k]`: remove the binding for `k` if present. -/
def mdel {κ : Type} {α : Type} [DecidableEq κ] (m : List (κ × α)) (k : κ) : List (κ × α) :=
  match m with
  | [] => []
  | (k', v') :: rest => if k' = k then rest else (k', v') :: mdel rest k

/-- Identity of an observer's `notifyContext`: the `Controller` Singleton, or
an application object (mediator instance or other) by numeric identity. -/
inductive Ctx where
  | ctrl : Ctx
  | obj : Nat → Ctx
deriving DecidableEq, Repr

/-- Identity of an observer's `notifyMethod`: `Controller.executeCommand`, or
the `handleNotification` method of the mediator with the given identity. -/
inductive Handler where
  | execCmd : Handler
  | mediate : Nat → Handler
deriving DecidableEq, Repr

/-- Modelled from the spec (the `Observer` class body is not among the
provided sources; only its callers and type declaration are): an `Observer`
stores a `notifyMethod` and a `notifyContext`; `notifyObserver` invokes the
stored method and `compareNotifyContext` compares an object to the stored
context by identity. -/
structure Observer where
  notify : Handler
  context : Ctx
deriving DecidableEq, Repr

/-- Modelled from the spec: `Observer.compareNotifyContext(object)` is true
exactly when `object` is identity-equal to the stored `notifyContext`. -/
def compareNotifyContext (o : Observer) (c : Ctx) : Bool :=
  o.context = c

/-- A `Mediator` as the `View` consumes it: an instance identity, the registry
`name`, and `listNotificationInterests`, given as a function of how many times
the method has been called on this instance so far (so that a re-query is
observable). -/
structure Mediator where
  id : Nat
  name : String
  interests : Nat → List String

/-- A `Proxy` as the `Model` consumes it: an instance identity and the
registry `name` (its `data` plays no part in the registry semantics). -/
structure Proxy where
  id : Nat
  name : String
deriving DecidableEq, Repr

/-- Observable callback events: proxy / mediator lifecycle hooks, interest
queries (with the per-instance call index), mediator notification handling,
and command instantiation + execution (factory identity, fresh instance
number, notification name). -/
inductive Ev where
  | pReg : Nat → Ev
  | pRem : Nat → Ev
  | mReg : Nat → Ev
  | mRem : Nat → Ev
  | qInterests : Nat → Nat → Ev
  | handled : Nat → String → Ev
  | cmdExec : Nat → Nat → String → Ev
deriving DecidableEq, Repr

/-- The combined mutable state of the core Singletons: `View.mediatorMap`,
`View.observerMap`, `Controller.commandMap` (command factories by identity),
`Model.proxyMap`, the per-mediator-instance count of
`listNotificationInterests` calls, and a counter supplying fresh command
instance numbers. -/
structure St where
  mediatorMap : List (String × Mediator)
  observerMap : List (String × List Observer)
  commandMap : List (String × Nat)
  proxyMap : List (String × Proxy)
  queries : List (Nat × Nat)
  nextInst : Nat

/-- The state at process start: every registry empty. -/
def initSt : St := ⟨[], [], [], [], [], 0⟩

/-- The observer list registered for a name, `[]` when the key is absent. -/
def obsListD (s : St) (n : String) : List Observer :=
  (mget s.observerMap n).getD []

/-- `View.registerObserver(notificationName, observer)`: push onto the
existing list for the name, or create the key with a one-element list. -/
def registerObserver (name : String) (o : Observer) (s : St) : St :=
  match mget s.observerMap name with
  | some obs => { s with observerMap := mset s.observerMap name (obs ++ [o]) }
  | none => { s with observerMap := mset s.observerMap name [o] }

/-- The loop body of `View.removeObserver`: drop the first observer whose
`compareNotifyContext` matches (the loop breaks after the first splice). -/
def removeFirst (c : Ctx) : List Observer → List Observer
  | [] => []
  | o :: rest => if compareNotifyContext o c then rest else o :: removeFirst c rest

/-- `View.removeObserver(notificationName, notifyContext)`: read the list for
the name (a `TypeError` on an absent key, embedded as `none`), splice out the
first context match, and delete the key if the list length fell to zero. -/
def removeObserver (name : String) (c : Ctx) (s : St) : Option St :=
  match mget s.observerMap name with
  | none => none
  | some obs =>
    let obs' := removeFirst c obs
    if obs'.length = 0 then
      some { s with observerMap := mdel s.observerMap name }
    else
      some { s with observerMap := mset s.observerMap name obs' }

/-- One step of `View.notifyObservers`' loop over the snapshot copy: apply the
dispatch function to each snapshotted observer in order, threading state,
concatenating emitted events, and recording the invoked observers. -/
def notifyList (d : Observer → St → St × List Ev) :
    List Observer → St → St × List Ev × List Observer
  | [], s => (s, [], [])
  | o :: rest, s =>
    let r1 := d o s
    let r2 := notifyList d rest r1.1
    (r2.1, r1.2 ++ r2.2.1, o :: r2.2.2)

/-- `View.notifyObservers(notification)`: return if no list exists for the
name; otherwise copy the current list (`.slice()`) and invoke each observer
of the copy in order, while the live map may change under the loop.  The
dispatch argument stands for `Observer.notifyObserver`. -/
def notifyObservers (d : Observer → St → St × List Ev) (name : String) (s : St) :
    St × List Ev × List Observer :=
  match mget s.observerMap name with
  | none => (s, [], [])
  | some obs => notifyList d obs s

/-- The registration loop of `View.registerMediator`: register the (single)
observer instance under every interest name in order. -/
def regObsList (names : List String) (o : Observer) (s : St) : St :=
  names.foldl (fun s n => registerObserver n o s) s

/-- `View.registerMediator(mediator)`: return at once if the name is taken;
otherwise store the mediator, call `listNotificationInterests()` (recorded at
the instance's current call index), build one observer on
`(handleNotification, mediator)` when the interest list is non-empty and
register it under every interest, then call `onRegister()` last. -/
def registerMediator (m : Mediator) (s : St) : St × List Ev :=
  match mget s.mediatorMap m.name with
  | some _ => (s, [])
  | none =>
    let s1 := { s with mediatorMap := mset s.mediatorMap m.name m }
    let q := (mget s1.queries m.id).getD 0
    let interests := m.interests q
    let s2 := { s1 with queries := mset s1.queries m.id (q + 1) }
    let s3 :=
      if interests.length > 0 then
        regObsList interests ⟨Handler.mediate m.id, Ctx.obj m.id⟩ s2
      else s2
    (s3, [Ev.qInterests m.id q, Ev.mReg m.id])

/-- `View.retrieveMediator(mediatorName)`: the stored instance or null. -/
def retrieveMediator (name : String) (s : St) : Option Mediator :=
  mget s.mediatorMap name

/-- `View.hasMediator(mediatorName)`. -/
def hasMediator (name : String) (s : St) : Bool :=
  (mget s.mediatorMap name).isSome

/-- The removal loop of `View.removeMediator`: `removeObserver` under each
name in order; a crash of any step aborts the whole operation. -/
def removeObsList (names : List String) (c : Ctx) (s : St) : Option St :=
  match names with
  | [] => some s
  | n :: rest =>
    match removeObserver n c s with
    | none => none
    | some s' => removeObsList rest c s'

/-- `View.removeMediator(mediatorName)`: null and no change when the name is
absent; otherwise call `listNotificationInterests()` on the stored mediator
(again, at the instance's current call index), `removeObserver` under each
returned name, delete the name from the mediator map, call `onRemove()`, and
return the removed instance. -/
def removeMediator (name : String) (s : St) : Option (St × List Ev × Option Mediator) :=
  match mget s.mediatorMap name with
  | none => some (s, [], none)
  | some m =>
    let q := (mget s.queries m.id).getD 0
    let s1 := { s with queries := mset s.queries m.id (q + 1) }
    match removeObsList (m.interests q) (Ctx.obj m.id) s1 with
    | none => none
    | some s2 =>
      some ({ s2 with mediatorMap := mdel s2.mediatorMap name },
        [Ev.qInterests m.id q, Ev.mRem m.id], some m)

/-- The observer `Controller.registerCommand` installs: `executeCommand` bound
to the `Controller` Singleton itself. -/
def ctrlObserver : Observer := ⟨Handler.execCmd, Ctx.ctrl⟩

/-- `Controller.registerCommand(notificationName, factory)`: register the
controller observer only when no factory is mapped yet, then unconditionally
overwrite the factory mapping. -/
def registerCommand (name : String) (f : Nat) (s : St) : St :=
  let s1 :=
    if (mget s.commandMap name).isNone then registerObserver name ctrlObserver s
    else s
  { s1 with commandMap := mset s1.commandMap name f }

/-- `Controller.executeCommand(notification)`: no-op when no factory is mapped
for the notification's name; otherwise call the factory for a fresh command
instance and execute it once (recorded as a `cmdExec` event carrying the
factory identity and the freshly allocated instance number). -/
def executeCommand (name : String) (s : St) : St × List Ev :=
  match mget s.commandMap name with
  | none => (s, [])
  | some f => ({ s with nextInst := s.nextInst + 1 }, [Ev.cmdExec f s.nextInst name])

/-- `Controller.hasCommand(notificationName)`. -/
def hasCommand (name : String) (s : St) : Bool :=
  (mget s.commandMap name).isSome

/-- `Controller.removeCommand(notificationName)`: when a factory is mapped,
ask the `View` to remove the controller observer for the name, then delete
the factory mapping. -/
def removeCommand (name : String) (s : St) : Option St :=
  if hasCommand name s then
    match removeObserver name Ctx.ctrl s with
    | none => none
    | some s1 => some { s1 with commandMap := mdel s1.commandMap name }
  else some s

/-- `Observer.notifyObserver` under the standard bindings: a controller
observer runs `Controller.executeCommand`; a mediator observer runs the
mediator's `handleNotification`, whose application-defined body is recorded
as a `handled` event. -/
def stdDispatch (note : String) : Observer → St → St × List Ev :=
  fun o s =>
    match o.notify with
    | Handler.execCmd => executeCommand note s
    | Handler.mediate m => (s, [Ev.handled m note])

/-- A broadcast of a notification with the given name through
`View.notifyObservers` under the standard dispatch. -/
def broadcast (note : String) (s : St) : St × List Ev × List Observer :=
  notifyObservers (stdDispatch note) note s

/-- A succession of `Controller.registerCommand` calls for one notification
name, registering the factories in order. -/
def regCmds (n : String) (fs : List Nat) (s : St) : St :=
  fs.foldl (fun s f => registerCommand n f s) s

/-- Whether an event records a command instantiation and execution. -/
def isCmdEv : Ev → Bool
  | Ev.cmdExec _ _ _ => true
  | _ => false

/-- Whether an event records a `listNotificationInterests` query. -/
def isQEv : Ev → Bool
  | Ev.qInterests _ _ => true
  | _ => false

/-- `Model.registerProxy(proxy)`: store by name, then call `onRegister()`. -/
def registerProxy (p : Proxy) (s : St) : St × List Ev :=
  ({ s with proxyMap := mset s.proxyMap p.name p }, [Ev.pReg p.id])

/-- `Model.retrieveProxy(proxyName)`: the stored instance or null. -/
def retrieveProxy (name : String) (s : St) : Option Proxy :=
  mget s.proxyMap name

/-- `Model.hasProxy(proxyName)`. -/
def hasProxy (name : String) (s : St) : Bool :=
  (mget s.proxyMap name).isSome

/-- `Model.removeProxy(proxyName)`: null and no change when the name is
absent; otherwise delete the binding, call `onRemove()` on the removed
instance, and return it. -/
def removeProxy (name : String) (s : St) : St × List Ev × Option Proxy :=
  match mget s.proxyMap name with
  | none => (s, [], none)
  | some p => ({ s with proxyMap := mdel s.proxyMap name }, [Ev.pRem p.id], some p)

/-- The mutating public operations through which the registries of `View` and
`Controller` evolve.  `View.notifyObservers` itself writes nothing to the
maps: any mutation during a broadcast happens through handlers calling these
same public operations synchronously, so every reachable registry state is a
fold of these primitive steps (spec section 5). -/
inductive Op where
  | regObs : String → Observer → Op
  | remObs : String → Ctx → Op
  | regMed : Mediator → Op
  | remMed : String → Op
  | regCmd : String → Nat → Op
  | remCmd : String → Op

/-- Apply one public operation, `none` when the underlying code throws. -/
def applyOp (op : Op) (s : St) : Option St :=
  match op with
  | Op.regObs n o => some (registerObserver n o s)
  | Op.remObs n c => removeObserver n c s
  | Op.regMed m => some (registerMediator m s).1
  | Op.remMed n => (removeMediator n s).map (·.1)
  | Op.regCmd n f => some (registerCommand n f s)
  | Op.remCmd n => removeCommand n s

/-- Run a sequence of public operations from a state; a throw aborts. -/
def runOps : List Op → St → Option St
  | [], s => some s
  | op :: rest, s =>
    match applyOp op s with
    | none => none
    | some s' => runOps rest s'

/-- The observer-map invariant of spec section 3: no notification-name key is
bound to an empty observer sequence. -/
def obsInv (s : St) : Prop :=
  ∀ p ∈ s.observerMap, p.2 ≠ ([] : List Observer)

/-- A `Model` Singleton instance: its `proxyMap`. -/
structure ModelInst where
  proxyMap : List (String × Proxy)

/-- A `View` Singleton instance: its `mediatorMap` and `observerMap`. -/
structure ViewInst where
  mediatorMap : List (String × Mediator)
  observerMap : List (String × List Observer)

/-- A `Controller` Singleton instance: its `commandMap`. -/
structure ControllerInst where
  commandMap : List (String × Nat)

/-- A `Facade` Singleton instance (its three core references are created by
its `initializeFacade` chain; nothing further matters to the Singleton
discipline). -/
structure FacadeInst where
  ready : Bool

/-- The `Model` constructor over the static `instance` slot: throw the
Singleton message when the slot is occupied (leaving it unchanged), else
create the instance with an empty `proxyMap` and store it in the slot. -/
def modelConstruct (slot : Option ModelInst) : Option ModelInst × Except String ModelInst :=
  match slot with
  | some i => (some i, Except.error "Model Singleton already constructed!")
  | none => (some ⟨[]⟩, Except.ok ⟨[]⟩)

/-- `Model.getInstance(factory)` over the static slot: call the factory only
when the slot is empty; return the (possibly pre-existing) instance.  The
boolean records whether the factory ran. -/
def modelGetInstance (slot : Option ModelInst) (factory : Unit → ModelInst) :
    Option ModelInst × ModelInst × Bool :=
  match slot with
  | some i => (some i, i, false)
  | none => (some (factory ()), factory (), true)

/-- The `View` constructor over the static `instance` slot. -/
def viewConstruct (slot : Option ViewInst) : Option ViewInst × Except String ViewInst :=
  match slot with
  | some i => (some i, Except.error "View Singleton already constructed!")
  | none => (some ⟨[], []⟩, Except.ok ⟨[], []⟩)

/-- `View.getInstance(factory)` over the static slot. -/
def viewGetInstance (slot : Option ViewInst) (factory : Unit → ViewInst) :
    Option ViewInst × ViewInst × Bool :=
  match slot with
  | some i => (some i, i, false)
  | none => (some (factory ()), factory (), true)

/-- The `Controller` constructor over the static `instance` slot. -/
def controllerConstruct (slot : Option ControllerInst) :
    Option ControllerInst × Except String ControllerInst :=
  match slot with
  | some i => (some i, Except.error "Controller Singleton already constructed!")
  | none => (some ⟨[]⟩, Except.ok ⟨[]⟩)

/-- `Controller.getInstance(factory)` over the static slot. -/
def controllerGetInstance (slot : Option ControllerInst) (factory : Unit → ControllerInst) :
    Option ControllerInst × ControllerInst × Bool :=
  match slot with
  | some i => (some i, i, false)
  | none => (some (factory ()), factory (), true)

/-- The `Facade` constructor over the static `instance` slot. -/
def facadeConstruct (slot : Option FacadeInst) :
    Option FacadeInst × Except String FacadeInst :=
  match slot with
  | some i => (some i, Except.error "Facade Singleton already constructed!")
  | none => (some ⟨true⟩, Except.ok ⟨true⟩)

/-- `Facade.getInstance(factory)` over the static slot. -/
def facadeGetInstance (slot : Option FacadeInst) (factory : Unit → FacadeInst) :
    Option FacadeInst × FacadeInst × Bool :=
  match slot with
  | some i => (some i, i, false)
  | none => (some (factory ()), factory (), true)

/-! Association-list lemmas for the JavaScript-object semantics. -/

theorem mget_mset_self {κ α : Type} [DecidableEq κ] (m : List (κ × α)) (k : κ) (v : α) :
    mget (mset m k v) k = some v := by
  induction m with
  | nil => simp [mget, mset]
  | cons p rest ih =>
    obtain ⟨k', v'⟩ := p
    by_cases h : k' = k <;> simp [mget, mset, h, ih]

theorem mget_mset_ne {κ α : Type} [DecidableEq κ] (m : List (κ × α)) (k k' : κ) (v : α)
    (h : k' ≠ k) : mget (mset m k v) k' = mget m k' := by
  have hks : ¬k = k' := fun hh => h hh.symm
  induction m with
  | nil => simp [mget, mset, hks]
  | cons p rest ih =>
    obtain ⟨k₀, v₀⟩ := p
    by_cases h₀ : k₀ = k
    · subst h₀
      simp [mget, mset, hks]
    · simp [mget, mset, h₀, ih]

theorem mget_mdel_ne {κ α : Type} [DecidableEq κ] (m : List (κ × α)) (k k' : κ)
    (h : k' ≠ k) : mget (mdel m k) k' = mget m k' := by
  have hks : ¬k = k' := fun hh => h hh.symm
  induction m with
  | nil => simp [mdel]
  | cons p rest ih =>
    obtain ⟨k₀, v₀⟩ := p
    by_cases h₀ : k₀ = k
    · subst h₀
      simp [mget, mdel, hks]
    · simp [mget, mdel, h₀, ih]

/-- The keys of an association list are duplicate-free — true of every list
standing for a JavaScript object. -/
def keysND {κ α : Type} (m : List (κ × α)) : Prop :=
  (m.map Prod.fst).Nodup

theorem mget_not_mem_keys {κ α : Type} [DecidableEq κ] (m : List (κ × α)) (k : κ)
    (h : k ∉ m.map Prod.fst) : mget m k = none := by
  induction m with
  | nil => simp [mget]
  | cons p rest ih =>
    obtain ⟨k₀, v₀⟩ := p
    simp only [List.map_cons, List.mem_cons] at h
    push_neg at h
    have h₀ : ¬k₀ = k := fun hh => h.1 hh.symm
    simp [mget, h₀, ih h.2]

theorem mget_mdel_self {κ α : Type} [DecidableEq κ] (m : List (κ × α)) (k : κ)
    (hnd : keysND m) : mget (mdel m k) k = none := by
  induction m with
  | nil => simp [mdel, mget]
  | cons p rest ih =>
    obtain ⟨k₀, v₀⟩ := p
    simp only [keysND, List.map_cons, List.nodup_cons] at hnd
    by_cases h₀ : k₀ = k
    · subst h₀
      simp only [mdel, if_pos rfl]
      exact mget_not_mem_keys rest k₀ hnd.1
    · simp [mdel, mget, h₀, ih hnd.2]

theorem mem_mset {κ α : Type} [DecidableEq κ] (m : List (κ × α)) (k : κ) (v : α)
    (p : κ × α) (h : p ∈ mset m k v) : p = (k, v) ∨ p ∈ m := by
  induction m with
  | nil => simpa [mset] using h
  | cons q rest ih =>
    obtain ⟨k₀, v₀⟩ := q
    by_cases h₀ : k₀ = k
    · simp only [mset, if_pos h₀, List.mem_cons] at h
      rcases h with h | h
      · exact Or.inl h
      · exact Or.inr (List.mem_cons_of_mem _ h)
    · simp only [mset, if_neg h₀, List.mem_cons] at h
      rcases h with h | h
      · exact Or.inr (by simp [h])
      · rcases ih h with h' | h'
        · exact Or.inl h'
        · exact Or.inr (List.mem_cons_of_mem _ h')

theorem mem_mdel {κ α : Type} [DecidableEq κ] (m : List (κ × α)) (k : κ)
    (p : κ × α) (h : p ∈ mdel m k) : p ∈ m := by
  induction m with
  | nil => simp [mdel] at h
  | cons q rest ih =>
    obtain ⟨k₀, v₀⟩ := q
    by_cases h₀ : k₀ = k
    · simp only [mdel, if_pos h₀] at h
      exact List.mem_cons_of_mem _ h
    · simp only [mdel, if_neg h₀, List.mem_cons] at h
      rcases h with h | h
      · simp [h]
      · exact List.mem_cons_of_mem _ (ih h)

theorem mem_keys_mset {κ α : Type} [DecidableEq κ] (m : List (κ × α)) (k k' : κ) (v : α)
    (h : k' ∈ (mset m k v).map Prod.fst) : k' = k ∨ k' ∈ m.map Prod.fst := by
  simp only [List.mem_map] at h
  obtain ⟨p, hp, hfst⟩ := h
  rcases mem_mset m k v p hp with h' | h'
  · left
    rw [← hfst, h']
  · right
    exact List.mem_map.mpr ⟨p, h', hfst⟩

theorem keysND_mset {κ α : Type} [DecidableEq κ] (m : List (κ × α)) (k : κ) (v : α)
    (h : keysND m) : keysND (mset m k v) := by
  induction m with
  | nil => simp [mset, keysND]
  | cons p rest ih =>
    obtain ⟨k₀, v₀⟩ := p
    simp only [keysND, List.map_cons, List.nodup_cons] at h
    by_cases h₀ : k₀ = k
    · subst h₀
      have hms : mset ((k₀, v₀) :: rest) k₀ v = (k₀, v) :: rest := by simp [mset]
      rw [hms]
      simp only [keysND, List.map_cons, List.nodup_cons]
      exact ⟨h.1, h.2⟩
    · simp only [mset, if_neg h₀, keysND, List.map_cons, List.nodup_cons]
      refine ⟨fun hmem => ?_, ih h.2⟩
      rcases mem_keys_mset rest k k₀ v hmem with h' | h'
      · exact h₀ h'
      · exact h.1 h'

theorem mem_keys_mdel {κ α : Type} [DecidableEq κ] (m : List (κ × α)) (k k' : κ)
    (h : k' ∈ (mdel m k).map Prod.fst) : k' ∈ m.map Prod.fst := by
  simp only [List.mem_map] at h
  obtain ⟨p, hp, hfst⟩ := h
  exact List.mem_map.mpr ⟨p, mem_mdel m k p hp, hfst⟩

theorem keysND_mdel {κ α : Type} [DecidableEq κ] (m : List (κ × α)) (k : κ)
    (h : keysND m) : keysND (mdel m k) := by
  induction m with
  | nil => simp [mdel, keysND]
  | cons p rest ih =>
    obtain ⟨k₀, v₀⟩ := p
    simp only [keysND, List.map_cons, List.nodup_cons] at h
    by_cases h₀ : k₀ = k
    · subst h₀
      simp only [mdel, if_pos rfl, keysND]
      exact h.2
    · simp only [mdel, if_neg h₀, keysND, List.map_cons, List.nodup_cons]
      exact ⟨fun hmem => h.1 (mem_keys_mdel rest k k₀ hmem), ih h.2⟩

/-! Claim theorems. -/

/-- C9: `View.removeObserver` does not guard against an absent
notification-name key: when no observer list exists for the name, the lookup
yields no sequence and the scan cannot proceed — the call throws (embedded as
`none`) instead of returning as a harmless no-op — and it is exactly the
presence of a list for the name that makes the call succeed. -/
theorem c9_remove_observer_unguarded (name : String) (c : Ctx) (s : St) :
    (mget s.observerMap name = none → removeObserver name c s = none) ∧
    (∀ l, mget s.observerMap name = some l → (removeObserver name c s).isSome = true) := by
  constructor
  · intro h
    simp [removeObserver, h]
  · intro l h
    by_cases hl : (removeFirst c l).length = 0 <;> simp [removeObserver, h, hl]

/-- Witness for C9: removal under an absent name throws from the empty
initial state; removal under a present name succeeds. -/
theorem c9_remove_observer_unguarded_witness :
    removeObserver "missing" Ctx.ctrl initSt = none ∧
    (removeObserver "a" Ctx.ctrl ⟨[], [("a", [ctrlObserver])], [], [], [], 0⟩).isSome = true :=
  ⟨(c9_remove_observer_unguarded "missing" Ctx.ctrl initSt).1 rfl,
   (c9_remove_observer_unguarded "a" Ctx.ctrl
      ⟨[], [("a", [ctrlObserver])], [], [], [], 0⟩).2 [ctrlObserver] rfl⟩

/-- C7: the proxy registry algebra — `registerProxy(p)` then
`retrieveProxy(p.name)` returns `p`; `removeProxy(p.name)` then returns `p`
with `p.onRemove()` invoked, after which `retrieveProxy(p.name)` returns
null; and `removeProxy` of an unregistered name returns null and leaves the
state unchanged. -/
theorem c7_proxy_registry_roundtrip (p : Proxy) (s : St) (hnd : keysND s.proxyMap) :
    retrieveProxy p.name (registerProxy p s).1 = some p ∧
    (removeProxy p.name (registerProxy p s).1).2.2 = some p ∧
    (removeProxy p.name (registerProxy p s).1).2.1 = [Ev.pRem p.id] ∧
    retrieveProxy p.name (removeProxy p.name (registerProxy p s).1).1 = none ∧
    (∀ (n : String) (s' : St), mget s'.proxyMap n = none → removeProxy n s' = (s', [], none)) := by
  have h1 : mget (mset s.proxyMap p.name p) p.name = some p := mget_mset_self ..
  refine ⟨?_, ?_, ?_, ?_, ?_⟩
  · simpa [retrieveProxy, registerProxy] using h1
  · simp [removeProxy, registerProxy, h1]
  · simp [removeProxy, registerProxy, h1]
  · simp only [removeProxy, retrieveProxy, registerProxy, h1]
    exact mget_mdel_self _ _ (keysND_mset _ _ _ hnd)
  · intro n s' h
    simp [removeProxy, h]

/-- Witness for C7 at the proxy `⟨7, "P"⟩` and the empty initial state. -/
theorem c7_proxy_registry_roundtrip_witness :
    keysND initSt.proxyMap ∧
    (retrieveProxy "P" (registerProxy ⟨7, "P"⟩ initSt).1 = some ⟨7, "P"⟩ ∧
     (removeProxy "P" (registerProxy ⟨7, "P"⟩ initSt).1).2.2 = some ⟨7, "P"⟩ ∧
     (removeProxy "P" (registerProxy ⟨7, "P"⟩ initSt).1).2.1 = [Ev.pRem 7] ∧
     retrieveProxy "P" (removeProxy "P" (registerProxy ⟨7, "P"⟩ initSt).1).1 = none ∧
     (∀ (n : String) (s' : St), mget s'.proxyMap n = none → removeProxy n s' = (s', [], none))) :=
  ⟨by simp [keysND, initSt],
   c7_proxy_registry_roundtrip ⟨7, "P"⟩ initSt (by simp [keysND, initSt])⟩

/-- C10: duplicate proxy registration is a silent last-writer-wins overwrite:
after `registerProxy(p)` then `registerProxy(q)` with the same name,
retrieval returns `q`, `q.onRegister()` ran at its registration, and the
displaced `p` never receives `onRemove()`; duplicate mediator registration,
by contrast, is a no-op. -/
theorem c10_register_proxy_overwrite (p q : Proxy) (s : St) (h : q.name = p.name) :
    retrieveProxy p.name (registerProxy q (registerProxy p s).1).1 = some q ∧
    (registerProxy q (registerProxy p s).1).2 = [Ev.pReg q.id] ∧
    ((registerProxy p s).2 ++ (registerProxy q (registerProxy p s).1).2).countP
        (fun e => e == Ev.pRem p.id) = 0 ∧
    (∀ (m₀ m₁ : Mediator) (s' : St), m₁.name = m₀.name →
      mget s'.mediatorMap m₀.name = some m₀ → registerMediator m₁ s' = (s', [])) := by
  refine ⟨?_, rfl, ?_, ?_⟩
  · simp only [retrieveProxy, registerProxy, h]
    exact mget_mset_self ..
  · simp [registerProxy, List.countP_cons]
  · intro m₀ m₁ s' hname hreg
    have h' : mget s'.mediatorMap m₁.name = some m₀ := by rw [hname]; exact hreg
    simp [registerMediator, h']

/-- Witness for C10: proxies `⟨1, "X"⟩` and `⟨2, "X"⟩` from the empty state. -/
theorem c10_register_proxy_overwrite_witness :
    (Proxy.name ⟨2, "X"⟩ = Proxy.name ⟨1, "X"⟩) ∧
    (retrieveProxy "X" (registerProxy ⟨2, "X"⟩ (registerProxy ⟨1, "X"⟩ initSt).1).1 = some ⟨2, "X"⟩ ∧
     (registerProxy ⟨2, "X"⟩ (registerProxy ⟨1, "X"⟩ initSt).1).2 = [Ev.pReg 2] ∧
     ((registerProxy ⟨1, "X"⟩ initSt).2 ++
        (registerProxy ⟨2, "X"⟩ (registerProxy ⟨1, "X"⟩ initSt).1).2).countP
          (fun e => e == Ev.pRem 1) = 0 ∧
     (∀ (m₀ m₁ : Mediator) (s' : St), m₁.name = m₀.name →
       mget s'.mediatorMap m₀.name = some m₀ → registerMediator m₁ s' = (s', []))) :=
  ⟨rfl, c10_register_proxy_overwrite ⟨1, "X"⟩ ⟨2, "X"⟩ initSt rfl⟩

/-- C8: the Singleton discipline of Model, View, Controller and Facade —
running a constructor while the static `instance` slot is occupied throws the
AlreadyConstructed error and neither replaces nor returns the existing
instance, while `getInstance` on an occupied slot returns the existing
instance without running the supplied factory. -/
theorem c8_singleton_already_constructed :
    (∀ i : ModelInst, modelConstruct (some i) =
      (some i, Except.error "Model Singleton already constructed!")) ∧
    (∀ (i : ModelInst) (f : Unit → ModelInst), modelGetInstance (some i) f = (some i, i, false)) ∧
    (∀ i : ViewInst, viewConstruct (some i) =
      (some i, Except.error "View Singleton already constructed!")) ∧
    (∀ (i : ViewInst) (f : Unit → ViewInst), viewGetInstance (some i) f = (some i, i, false)) ∧
    (∀ i : ControllerInst, controllerConstruct (some i) =
      (some i, Except.error "Controller Singleton already constructed!")) ∧
    (∀ (i : ControllerInst) (f : Unit → ControllerInst),
      controllerGetInstance (some i) f = (some i, i, false)) ∧
    (∀ i : FacadeInst, facadeConstruct (some i) =
      (some i, Except.error "Facade Singleton already constructed!")) ∧
    (∀ (i : FacadeInst) (f : Unit → FacadeInst), facadeGetInstance (some i) f = (some i, i, false)) :=
  ⟨fun _ => rfl, fun _ _ => rfl, fun _ => rfl, fun _ _ => rfl,
   fun _ => rfl, fun _ _ => rfl, fun _ => rfl, fun _ _ => rfl⟩

/-- C6: `View.registerMediator` with an already-registered name is a no-op —
the state is returned unchanged and no callback event is emitted, so the
original instance stays retrievable, no observer list changes,
`listNotificationInterests` is not queried (the per-instance query counters
are untouched), and `onRegister` is not invoked. -/
theorem c6_register_mediator_noop (m m₀ : Mediator) (s : St)
    (h : mget s.mediatorMap m.name = some m₀) :
    registerMediator m s = (s, []) ∧
    retrieveMediator m.name (registerMediator m s).1 = some m₀ ∧
    (registerMediator m s).1.queries = s.queries ∧
    (registerMediator m s).1.observerMap = s.observerMap := by
  have h1 : registerMediator m s = (s, []) := by simp [registerMediator, h]
  exact ⟨h1, by simp [h1, retrieveMediator, h], by simp [h1], by simp [h1]⟩

/-- Witness for C6: re-registering the name "M" held by mediator instance 0
with a different instance 1 changes nothing. -/
theorem c6_register_mediator_noop_witness :
    mget (St.mediatorMap ⟨[("M", ⟨0, "M", fun _ => ["a"]⟩)], [], [], [], [], 0⟩) "M" =
      some ⟨0, "M", fun _ => ["a"]⟩ ∧
    (registerMediator ⟨1, "M", fun _ => ["b"]⟩ ⟨[("M", ⟨0, "M", fun _ => ["a"]⟩)], [], [], [], [], 0⟩ =
      (⟨[("M", ⟨0, "M", fun _ => ["a"]⟩)], [], [], [], [], 0⟩, []) ∧
     retrieveMediator "M"
        (registerMediator ⟨1, "M", fun _ => ["b"]⟩
          ⟨[("M", ⟨0, "M", fun _ => ["a"]⟩)], [], [], [], [], 0⟩).1 =
        some ⟨0, "M", fun _ => ["a"]⟩ ∧
     (registerMediator ⟨1, "M", fun _ => ["b"]⟩
        ⟨[("M", ⟨0, "M", fun _ => ["a"]⟩)], [], [], [], [], 0⟩).1.queries =
        St.queries ⟨[("M", ⟨0, "M", fun _ => ["a"]⟩)], [], [], [], [], 0⟩ ∧
     (registerMediator ⟨1, "M", fun _ => ["b"]⟩
        ⟨[("M", ⟨0, "M", fun _ => ["a"]⟩)], [], [], [], [], 0⟩).1.observerMap =
        St.observerMap ⟨[("M", ⟨0, "M", fun _ => ["a"]⟩)], [], [], [], [], 0⟩) :=
  ⟨rfl, c6_register_mediator_noop ⟨1, "M", fun _ => ["b"]⟩ ⟨0, "M", fun _ => ["a"]⟩
    ⟨[("M", ⟨0, "M", fun _ => ["a"]⟩)], [], [], [], [], 0⟩ rfl⟩

/-- The loop of `View.notifyObservers` invokes exactly the observers of the
snapshot it was handed, in order, whatever the dispatch function does to the
live state. -/
theorem notifyList_invoked (d : Observer → St → St × List Ev) (l : List Observer) :
    ∀ s, (notifyList d l s).2.2 = l := by
  induction l with
  | nil => intro s; rfl
  | cons o rest ih => intro s; simp [notifyList, ih]

/-- C2: `View.notifyObservers` on a name with a non-empty observer list
invokes exactly the observers present in that list when the call starts, each
exactly once, in registration order — for an arbitrary dispatch function, so
in particular handlers that register or remove observers for the same name
mid-broadcast neither gain nor lose delivery for this broadcast, nor skip or
double-invoke any remaining snapshotted observer. -/
theorem c2_notify_observers_snapshot (d : Observer → St → St × List Ev) (name : String)
    (s : St) (obs : List Observer) (h : mget s.observerMap name = some obs) (_hne : obs ≠ []) :
    (notifyObservers d name s).2.2 = obs := by
  simp [notifyObservers, h, notifyList_invoked]

/-- Witness for C2: a dispatch function whose handler removes the observer of
context 1 for the broadcast name mid-broadcast; both snapshotted observers
are still invoked, in order. -/
theorem c2_notify_observers_snapshot_witness :
    mget (St.observerMap
        ⟨[], [("n", [⟨Handler.mediate 0, Ctx.obj 0⟩, ⟨Handler.mediate 1, Ctx.obj 1⟩])],
          [], [], [], 0⟩) "n" =
      some [⟨Handler.mediate 0, Ctx.obj 0⟩, ⟨Handler.mediate 1, Ctx.obj 1⟩] ∧
    ([⟨Handler.mediate 0, Ctx.obj 0⟩, ⟨Handler.mediate 1, Ctx.obj 1⟩] : List Observer) ≠ [] ∧
    (notifyObservers (fun _ s => ((removeObserver "n" (Ctx.obj 1) s).getD s, [])) "n"
        ⟨[], [("n", [⟨Handler.mediate 0, Ctx.obj 0⟩, ⟨Handler.mediate 1, Ctx.obj 1⟩])],
          [], [], [], 0⟩).2.2 =
      [⟨Handler.mediate 0, Ctx.obj 0⟩, ⟨Handler.mediate 1, Ctx.obj 1⟩] :=
  ⟨rfl, by decide,
   c2_notify_observers_snapshot (fun _ s => ((removeObserver "n" (Ctx.obj 1) s).getD s, [])) "n"
     ⟨[], [("n", [⟨Handler.mediate 0, Ctx.obj 0⟩, ⟨Handler.mediate 1, Ctx.obj 1⟩])],
       [], [], [], 0⟩
     [⟨Handler.mediate 0, Ctx.obj 0⟩, ⟨Handler.mediate 1, Ctx.obj 1⟩] rfl (by decide)⟩

/-- `View.registerObserver` appends to the one observer list (creating the
key with a one-element list when absent, which is the same as appending to
the empty default). -/
theorem registerObserver_observerMap (n : String) (o : Observer) (s : St) :
    (registerObserver n o s).observerMap = mset s.observerMap n (obsListD s n ++ [o]) := by
  cases h : mget s.observerMap n <;> simp [registerObserver, h, obsListD]

/-- `View.registerObserver` leaves every other state component alone. -/
theorem registerObserver_rest (n : String) (o : Observer) (s : St) :
    (registerObserver n o s).commandMap = s.commandMap ∧
    (registerObserver n o s).nextInst = s.nextInst := by
  cases h : mget s.observerMap n <;> simp [registerObserver, h]

/-- The first `registerCommand` for a name registers the controller observer
and sets the factory. -/
theorem registerCommand_first (n : String) (f : Nat) (s : St)
    (h : mget s.commandMap n = none) :
    registerCommand n f s =
      { registerObserver n ctrlObserver s with commandMap := mset s.commandMap n f } := by
  have hn : (mget s.commandMap n).isNone = true := by simp [h]
  simp only [registerCommand, hn, if_true]
  rw [(registerObserver_rest n ctrlObserver s).1]

/-- Any later `registerCommand` for the name only overwrites the factory. -/
theorem registerCommand_later (n : String) (f : Nat) (s : St)
    (h : (mget s.commandMap n).isSome = true) :
    registerCommand n f s = { s with commandMap := mset s.commandMap n f } := by
  have hn : (mget s.commandMap n).isNone = false := by
    cases hc : mget s.commandMap n <;> simp [hc] at h ⊢
  simp [registerCommand, hn]

/-- Re-registering factories for a name that already has one never touches
the observer map and leaves the last factory in place. -/
theorem regCmds_after (n : String) (fs : List Nat) :
    ∀ (s : St) (f₀ : Nat), mget s.commandMap n = some f₀ →
      (regCmds n fs s).observerMap = s.observerMap ∧
      (regCmds n fs s).nextInst = s.nextInst ∧
      mget (regCmds n fs s).commandMap n = some (fs.getLastD f₀) := by
  induction fs with
  | nil =>
    intro s f₀ h
    exact ⟨rfl, rfl, by simpa [regCmds] using h⟩
  | cons f rest ih =>
    intro s f₀ h
    have hsome : (mget s.commandMap n).isSome = true := by simp [h]
    have hstep : registerCommand n f s = { s with commandMap := mset s.commandMap n f } :=
      registerCommand_later n f s hsome
    have hfold : regCmds n (f :: rest) s = regCmds n rest (registerCommand n f s) := by
      simp [regCmds]
    rw [hfold, hstep]
    have hget : mget (mset s.commandMap n f) n = some f := mget_mset_self ..
    obtain ⟨h₁, h₂, h₃⟩ := ih { s with commandMap := mset s.commandMap n f } f hget
    refine ⟨h₁, h₂, ?_⟩
    rw [List.getLastD_cons]
    exact h₃

/-- `View.notifyObservers`' loop distributes over list concatenation. -/
theorem notifyList_append (d : Observer → St → St × List Ev) (l₁ l₂ : List Observer) :
    ∀ s : St, notifyList d (l₁ ++ l₂) s =
      ((notifyList d l₂ (notifyList d l₁ s).1).1,
       (notifyList d l₁ s).2.1 ++ (notifyList d l₂ (notifyList d l₁ s).1).2.1,
       (notifyList d l₁ s).2.2 ++ (notifyList d l₂ (notifyList d l₁ s).1).2.2) := by
  induction l₁ with
  | nil => intro s; simp [notifyList]
  | cons o rest ih => intro s; simp [notifyList, ih]

/-- A run of mediator-bound observers under the standard dispatch leaves the
state alone and emits no command events. -/
theorem notifyList_all_mediate (note : String) (l : List Observer) :
    ∀ s : St, (∀ o ∈ l, ∃ mid, o.notify = Handler.mediate mid) →
      (notifyList (stdDispatch note) l s).1 = s ∧
      (∀ e ∈ (notifyList (stdDispatch note) l s).2.1, isCmdEv e = false) := by
  induction l with
  | nil =>
    intro s _
    exact ⟨rfl, by simp [notifyList]⟩
  | cons o rest ih =>
    intro s hl
    obtain ⟨mid, hmid⟩ := hl o (List.mem_cons_self o rest)
    have hd : stdDispatch note o s = (s, [Ev.handled mid note]) := by
      simp [stdDispatch, hmid]
    obtain ⟨ih₁, ih₂⟩ := ih s (fun o' ho' => hl o' (List.mem_cons_of_mem _ ho'))
    refine ⟨by simp [notifyList, hd, ih₁], ?_⟩
    intro e he
    simp only [notifyList, hd, List.singleton_append] at he
    rcases List.mem_cons.mp he with he | he
    · subst he
      rfl
    · exact ih₂ e he

/-- C1: for any name and any succession of `registerCommand` calls for it
(with no intervening `removeCommand`), starting from a state with no factory
for the name and only mediator observers (none with the controller context)
in its list, the observer list ends with exactly one controller-context
observer, the factory mapping holds the last-registered factory, and a
single broadcast of the name instantiates and executes exactly one command —
built by the last factory, with a freshly allocated instance number — never
once per registration. -/
theorem c1_register_command_idempotent (n : String) (f₁ : Nat) (rest : List Nat) (s₀ : St)
    (hcmd : mget s₀.commandMap n = none)
    (hobs : ∀ o ∈ obsListD s₀ n,
      (∃ mid, o.notify = Handler.mediate mid) ∧ o.context ≠ Ctx.ctrl) :
    (obsListD (regCmds n (f₁ :: rest) s₀) n).countP
        (fun o => compareNotifyContext o Ctx.ctrl) = 1 ∧
    mget (regCmds n (f₁ :: rest) s₀).commandMap n = some (rest.getLastD f₁) ∧
    (broadcast n (regCmds n (f₁ :: rest) s₀)).2.1.filter isCmdEv =
      [Ev.cmdExec (rest.getLastD f₁) (regCmds n (f₁ :: rest) s₀).nextInst n] ∧
    (broadcast n (regCmds n (f₁ :: rest) s₀)).1.nextInst =
      (regCmds n (f₁ :: rest) s₀).nextInst + 1 := by
  have hfirst : registerCommand n f₁ s₀ =
      { registerObserver n ctrlObserver s₀ with commandMap := mset s₀.commandMap n f₁ } :=
    registerCommand_first n f₁ s₀ hcmd
  have hget₁ : mget (registerCommand n f₁ s₀).commandMap n = some f₁ := by
    rw [hfirst]
    exact mget_mset_self ..
  obtain ⟨hOM, hNI, hgetL⟩ := regCmds_after n rest (registerCommand n f₁ s₀) f₁ hget₁
  have hfold : regCmds n (f₁ :: rest) s₀ = regCmds n rest (registerCommand n f₁ s₀) := by
    simp [regCmds]
  have hOMfirst : (registerCommand n f₁ s₀).observerMap =
      mset s₀.observerMap n (obsListD s₀ n ++ [ctrlObserver]) := by
    rw [hfirst]
    exact registerObserver_observerMap n ctrlObserver s₀
  have hms : mget (regCmds n (f₁ :: rest) s₀).observerMap n =
      some (obsListD s₀ n ++ [ctrlObserver]) := by
    rw [hfold, hOM, hOMfirst]
    exact mget_mset_self ..
  have hlist : obsListD (regCmds n (f₁ :: rest) s₀) n = obsListD s₀ n ++ [ctrlObserver] := by
    show (mget (regCmds n (f₁ :: rest) s₀).observerMap n).getD [] = _
    rw [hms]
    rfl
  have hcmdS : mget (regCmds n (f₁ :: rest) s₀).commandMap n = some (rest.getLastD f₁) := by
    rw [hfold]
    exact hgetL
  have hcount : (obsListD s₀ n).countP (fun o => compareNotifyContext o Ctx.ctrl) = 0 := by
    rw [List.countP_eq_zero]
    intro o ho
    simp [compareNotifyContext, (hobs o ho).2]
  have hmed : ∀ o ∈ obsListD s₀ n, ∃ mid, o.notify = Handler.mediate mid :=
    fun o ho => (hobs o ho).1
  obtain ⟨hst, hev⟩ :=
    notifyList_all_mediate n (obsListD s₀ n) (regCmds n (f₁ :: rest) s₀) hmed
  have hexec : executeCommand n (regCmds n (f₁ :: rest) s₀) =
      ({ regCmds n (f₁ :: rest) s₀ with
          nextInst := (regCmds n (f₁ :: rest) s₀).nextInst + 1 },
       [Ev.cmdExec (rest.getLastD f₁) (regCmds n (f₁ :: rest) s₀).nextInst n]) := by
    simp [executeCommand, hcmdS]
  have hsingle : notifyList (stdDispatch n) [ctrlObserver] (regCmds n (f₁ :: rest) s₀) =
      ({ regCmds n (f₁ :: rest) s₀ with
          nextInst := (regCmds n (f₁ :: rest) s₀).nextInst + 1 },
       [Ev.cmdExec (rest.getLastD f₁) (regCmds n (f₁ :: rest) s₀).nextInst n],
       [ctrlObserver]) := by
    simp [notifyList, stdDispatch, ctrlObserver, hexec]
  have hbro : broadcast n (regCmds n (f₁ :: rest) s₀) =
      notifyList (stdDispatch n) (obsListD s₀ n ++ [ctrlObserver])
        (regCmds n (f₁ :: rest) s₀) := by
    simp [broadcast, notifyObservers, hms]
  refine ⟨?_, hcmdS, ?_, ?_⟩
  · rw [hlist, List.countP_append, hcount]
    decide
  · rw [hbro, notifyList_append, hst, hsingle]
    have h1 : (notifyList (stdDispatch n) (obsListD s₀ n)
        (regCmds n (f₁ :: rest) s₀)).2.1.filter isCmdEv = [] :=
      List.filter_eq_nil_iff.mpr (fun e he => by simp [hev e he])
    simp [List.filter_append, h1, isCmdEv]
  · rw [hbro, notifyList_append, hst, hsingle]

/-- Witness for C1: registering factories 5 then 7 for "go" from the empty
state installs one controller observer; a broadcast runs one command from
factory 7. -/
theorem c1_register_command_idempotent_witness :
    mget initSt.commandMap "go" = none ∧
    (∀ o ∈ obsListD initSt "go",
      (∃ mid, o.notify = Handler.mediate mid) ∧ o.context ≠ Ctx.ctrl) ∧
    ((obsListD (regCmds "go" [5, 7] initSt) "go").countP
        (fun o => compareNotifyContext o Ctx.ctrl) = 1 ∧
     mget (regCmds "go" [5, 7] initSt).commandMap "go" = some ([7].getLastD 5) ∧
     (broadcast "go" (regCmds "go" [5, 7] initSt)).2.1.filter isCmdEv =
       [Ev.cmdExec ([7].getLastD 5) (regCmds "go" [5, 7] initSt).nextInst "go"] ∧
     (broadcast "go" (regCmds "go" [5, 7] initSt)).1.nextInst =
       (regCmds "go" [5, 7] initSt).nextInst + 1) :=
  ⟨rfl, by simp [obsListD, initSt, mget],
   c1_register_command_idempotent "go" 5 [7] initSt rfl (by simp [obsListD, initSt, mget])⟩

/-- Unfolded form of `View.registerMediator` on a fresh name. -/
theorem registerMediator_fresh (m : Mediator) (s : St)
    (hm : mget s.mediatorMap m.name = none) :
    registerMediator m s =
      (if (m.interests ((mget s.queries m.id).getD 0)).length > 0 then
         regObsList (m.interests ((mget s.queries m.id).getD 0))
           ⟨Handler.mediate m.id, Ctx.obj m.id⟩
           { s with mediatorMap := mset s.mediatorMap m.name m,
                    queries := mset s.queries m.id ((mget s.queries m.id).getD 0 + 1) }
       else
         { s with mediatorMap := mset s.mediatorMap m.name m,
                  queries := mset s.queries m.id ((mget s.queries m.id).getD 0 + 1) },
       [Ev.qInterests m.id ((mget s.queries m.id).getD 0), Ev.mReg m.id]) := by
  unfold registerMediator
  rw [hm]

/-- Unfolded form of `View.removeMediator` on a registered name. -/
theorem removeMediator_found (nm : String) (m : Mediator) (s : St)
    (hm : mget s.mediatorMap nm = some m) :
    removeMediator nm s =
      (match removeObsList (m.interests ((mget s.queries m.id).getD 0)) (Ctx.obj m.id)
          { s with queries := mset s.queries m.id ((mget s.queries m.id).getD 0 + 1) } with
       | none => none
       | some s2 =>
         some ({ s2 with mediatorMap := mdel s2.mediatorMap nm },
           [Ev.qInterests m.id ((mget s.queries m.id).getD 0), Ev.mRem m.id], some m)) := by
  unfold removeMediator
  rw [hm]

/-- `View.registerObserver` preserves the no-empty-list invariant: it only
appends, and an absent key is created with a one-element list. -/
theorem obsInv_registerObserver (n : String) (o : Observer) (s : St) (h : obsInv s) :
    obsInv (registerObserver n o s) := by
  intro p hp
  rw [registerObserver_observerMap] at hp
  rcases mem_mset _ _ _ _ hp with h1 | h2
  · rw [h1]
    simp
  · exact h p h2

/-- `View.removeObserver` preserves the invariant: it deletes the name key
the moment the spliced list becomes empty. -/
theorem obsInv_removeObserver (n : String) (c : Ctx) (s s' : St)
    (h : removeObserver n c s = some s') (hinv : obsInv s) : obsInv s' := by
  cases hm : mget s.observerMap n with
  | none => simp [removeObserver, hm] at h
  | some obs =>
    simp only [removeObserver, hm] at h
    split at h
    · obtain rfl := Option.some.inj h
      intro p hp
      exact hinv p (mem_mdel _ _ _ hp)
    · next hlen =>
      obtain rfl := Option.some.inj h
      intro p hp
      rcases mem_mset _ _ _ _ hp with h1 | h2
      · rw [h1]
        show removeFirst c obs ≠ []
        intro hemp
        exact hlen (by simp [hemp])
      · exact hinv p h2

/-- The interest-registration loop preserves the invariant. -/
theorem obsInv_regObsList (names : List String) (o : Observer) :
    ∀ s : St, obsInv s → obsInv (regObsList names o s) := by
  induction names with
  | nil => intro s h; exact h
  | cons nm rest ih =>
    intro s h
    have hfold : regObsList (nm :: rest) o s = regObsList rest o (registerObserver nm o s) := by
      simp [regObsList]
    rw [hfold]
    exact ih _ (obsInv_registerObserver nm o s h)

/-- `View.registerMediator` preserves the invariant. -/
theorem obsInv_registerMediator (m : Mediator) (s : St) (h : obsInv s) :
    obsInv (registerMediator m s).1 := by
  cases hm : mget s.mediatorMap m.name with
  | some m₀ =>
    have heq : registerMediator m s = (s, []) := by simp [registerMediator, hm]
    rw [heq]
    exact h
  | none =>
    rw [registerMediator_fresh m s hm]
    by_cases hlen : (m.interests ((mget s.queries m.id).getD 0)).length > 0
    · rw [if_pos hlen]
      exact obsInv_regObsList _ _ _ h
    · rw [if_neg hlen]
      exact h

/-- The interest-removal loop preserves the invariant. -/
theorem obsInv_removeObsList (names : List String) (c : Ctx) :
    ∀ s s' : St, removeObsList names c s = some s' → obsInv s → obsInv s' := by
  induction names with
  | nil =>
    intro s s' h hinv
    obtain rfl := Option.some.inj h
    exact hinv
  | cons nm rest ih =>
    intro s s' h hinv
    cases hr : removeObserver nm c s with
    | none => simp [removeObsList, hr] at h
    | some s₁ =>
      simp only [removeObsList, hr] at h
      exact ih s₁ s' h (obsInv_removeObserver nm c s s₁ hr hinv)

/-- `View.removeMediator` preserves the invariant. -/
theorem obsInv_removeMediator (nm : String) (s : St) (r : St × List Ev × Option Mediator)
    (h : removeMediator nm s = some r) (hinv : obsInv s) : obsInv r.1 := by
  cases hm : mget s.mediatorMap nm with
  | none =>
    simp only [removeMediator, hm] at h
    obtain rfl := Option.some.inj h
    exact hinv
  | some m =>
    rw [removeMediator_found nm m s hm] at h
    cases hr : removeObsList (m.interests ((mget s.queries m.id).getD 0)) (Ctx.obj m.id)
        { s with queries := mset s.queries m.id ((mget s.queries m.id).getD 0 + 1) } with
    | none => rw [hr] at h; cases h
    | some s2 =>
      rw [hr] at h
      obtain rfl := Option.some.inj h
      intro p hp
      exact obsInv_removeObsList _ _ _ _ hr hinv p hp

/-- `Controller.registerCommand` preserves the invariant. -/
theorem obsInv_registerCommand (n : String) (f : Nat) (s : St) (h : obsInv s) :
    obsInv (registerCommand n f s) := by
  unfold registerCommand
  by_cases hc : (mget s.commandMap n).isNone = true
  · rw [if_pos hc]
    intro p hp
    exact obsInv_registerObserver n ctrlObserver s h p hp
  · rw [if_neg hc]
    intro p hp
    exact h p hp

/-- `Controller.removeCommand` preserves the invariant. -/
theorem obsInv_removeCommand (n : String) (s s' : St) (h : removeCommand n s = some s')
    (hinv : obsInv s) : obsInv s' := by
  unfold removeCommand at h
  by_cases hc : hasCommand n s = true
  · rw [if_pos hc] at h
    cases hr : removeObserver n Ctx.ctrl s with
    | none => rw [hr] at h; cases h
    | some s₁ =>
      rw [hr] at h
      obtain rfl := Option.some.inj h
      intro p hp
      exact obsInv_removeObserver n Ctx.ctrl s s₁ hr hinv p hp
  · rw [if_neg hc] at h
    obtain rfl := Option.some.inj h
    exact hinv

/-- Every public operation preserves the invariant when it completes. -/
theorem applyOp_obsInv (op : Op) (s s' : St) (h : applyOp op s = some s')
    (hinv : obsInv s) : obsInv s' := by
  cases op with
  | regObs n o =>
    obtain rfl := Option.some.inj h
    exact obsInv_registerObserver n o s hinv
  | remObs n c => exact obsInv_removeObserver n c s s' h hinv
  | regMed m =>
    obtain rfl := Option.some.inj h
    exact obsInv_registerMediator m s hinv
  | remMed n =>
    cases hr : removeMediator n s with
    | none => simp [applyOp, hr] at h
    | some r =>
      simp only [applyOp, hr, Option.map_some'] at h
      obtain rfl := Option.some.inj h
      exact obsInv_removeMediator n s r hr hinv
  | regCmd n f =>
    obtain rfl := Option.some.inj h
    exact obsInv_registerCommand n f s hinv
  | remCmd n => exact obsInv_removeCommand n s s' h hinv

/-- The invariant is preserved along any completed run of operations. -/
theorem runOps_obsInv (ops : List Op) :
    ∀ s₀ s : St, obsInv s₀ → runOps ops s₀ = some s → obsInv s := by
  induction ops with
  | nil =>
    intro s₀ s h0 h
    obtain rfl := Option.some.inj h
    exact h0
  | cons op rest ih =>
    intro s₀ s h0 h
    cases ha : applyOp op s₀ with
    | none => simp [runOps, ha] at h
    | some s₁ =>
      simp only [runOps, ha] at h
      exact ih s₁ s (applyOp_obsInv op s₀ s₁ ha h0) h

/-- C5: in every state reachable from the empty initial state through the
public mutating operations (`registerObserver`, `removeObserver`,
`registerMediator`, `removeMediator`, `registerCommand`, `removeCommand` —
`notifyObservers` mutates only through handlers calling these same
operations, which the run interleaves), no notification-name key of the
observer map is bound to an empty sequence: `removeObserver` deletes a key
the moment its list empties, and `registerObserver` creates keys only with
one-element lists. -/
theorem c5_no_empty_observer_list (ops : List Op) (s : St)
    (h : runOps ops initSt = some s) : obsInv s :=
  runOps_obsInv ops initSt s (fun p hp => by simp [initSt] at hp) h

/-- Witness for C5: a run that registers an observer and a command for "a"
and removes the controller observer again reaches a state satisfying the
invariant. -/
theorem c5_no_empty_observer_list_witness :
    runOps [Op.regObs "a" ctrlObserver, Op.regCmd "a" 3, Op.remObs "a" Ctx.ctrl] initSt =
      some ⟨[], [("a", [ctrlObserver])], [("a", 3)], [], [], 0⟩ ∧
    obsInv ⟨[], [("a", [ctrlObserver])], [("a", 3)], [], [], 0⟩ :=
  ⟨rfl, c5_no_empty_observer_list
    [Op.regObs "a" ctrlObserver, Op.regCmd "a" 3, Op.remObs "a" Ctx.ctrl]
    ⟨[], [("a", [ctrlObserver])], [("a", 3)], [], [], 0⟩ rfl⟩

/-- `View.registerObserver` touches only the observer map. -/
theorem registerObserver_fields (n : String) (o : Observer) (s : St) :
    (registerObserver n o s).mediatorMap = s.mediatorMap ∧
    (registerObserver n o s).proxyMap = s.proxyMap ∧
    (registerObserver n o s).queries = s.queries := by
  cases h : mget s.observerMap n <;> simp [registerObserver, h]

/-- The interest-registration loop touches only the observer map. -/
theorem regObsList_fields (names : List String) (o : Observer) :
    ∀ s : St, (regObsList names o s).mediatorMap = s.mediatorMap ∧
      (regObsList names o s).proxyMap = s.proxyMap ∧
      (regObsList names o s).queries = s.queries := by
  induction names with
  | nil => intro s; exact ⟨rfl, rfl, rfl⟩
  | cons nm rest ih =>
    intro s
    have hfold : regObsList (nm :: rest) o s = regObsList rest o (registerObserver nm o s) := by
      simp [regObsList]
    rw [hfold]
    obtain ⟨a1, a2, a3⟩ := registerObserver_fields nm o s
    obtain ⟨b1, b2, b3⟩ := ih (registerObserver nm o s)
    exact ⟨b1.trans a1, b2.trans a2, b3.trans a3⟩

/-- A successful `View.removeObserver` touches only the observer map. -/
theorem removeObserver_fields (n : String) (c : Ctx) (s s' : St)
    (h : removeObserver n c s = some s') :
    s'.mediatorMap = s.mediatorMap ∧ s'.commandMap = s.commandMap ∧
    s'.proxyMap = s.proxyMap ∧ s'.queries = s.queries ∧ s'.nextInst = s.nextInst := by
  cases hm : mget s.observerMap n with
  | none => simp [removeObserver, hm] at h
  | some obs =>
    simp only [removeObserver, hm] at h
    split at h <;> (obtain rfl := Option.some.inj h; exact ⟨rfl, rfl, rfl, rfl, rfl⟩)

/-- A successful interest-removal loop touches only the observer map. -/
theorem removeObsList_fields (names : List String) (c : Ctx) :
    ∀ s s' : St, removeObsList names c s = some s' →
      s'.mediatorMap = s.mediatorMap ∧ s'.commandMap = s.commandMap ∧
      s'.proxyMap = s.proxyMap ∧ s'.queries = s.queries ∧ s'.nextInst = s.nextInst := by
  induction names with
  | nil =>
    intro s s' h
    obtain rfl := Option.some.inj h
    exact ⟨rfl, rfl, rfl, rfl, rfl⟩
  | cons nm rest ih =>
    intro s s' h
    cases hr : removeObserver nm c s with
    | none => simp [removeObsList, hr] at h
    | some s₁ =>
      simp only [removeObsList, hr] at h
      obtain ⟨a1, a2, a3, a4, a5⟩ := removeObserver_fields nm c s s₁ hr
      obtain ⟨b1, b2, b3, b4, b5⟩ := ih s₁ s' h
      exact ⟨b1.trans a1, b2.trans a2, b3.trans a3, b4.trans a4, b5.trans a5⟩

/-- C3 counterexample: for the mediator instance 0 named "M" whose
`listNotificationInterests` returns `["a"]` on its first call and `[]` on
any later call, `removeMediator "M"` after registration re-queries the
method (the query counter ends at 2 and the removal emits the query event at
call index 1), uses the removal-time result `[]` rather than the
registration-time `["a"]`, and so leaves the "a" observer in place — a later
broadcast of "a" still invokes the removed mediator's handler. -/
theorem c3_interests_requeried_counterexample :
    removeMediator "M"
        (registerMediator ⟨0, "M", fun k => if k = 0 then ["a"] else []⟩ initSt).1 =
      some (⟨[], [("a", [⟨Handler.mediate 0, Ctx.obj 0⟩])], [], [], [(0, 2)], 0⟩,
        [Ev.qInterests 0 1, Ev.mRem 0],
        some ⟨0, "M", fun k => if k = 0 then ["a"] else []⟩) ∧
    (broadcast "a"
        ⟨[], [("a", [⟨Handler.mediate 0, Ctx.obj 0⟩])], [], [], [(0, 2)], 0⟩).2.1 =
      [Ev.handled 0 "a"] :=
  ⟨rfl, rfl⟩

/-- C3 (amended): `listNotificationInterests` is queried once at registration
time inside `registerMediator` (for a fresh name), and is queried once more
by `removeMediator` (for a registered name) — the set of interest names used
for observer removal is the one obtained by the fresh query at removal time,
at the instance's incremented call index, not the set obtained at
registration. -/
theorem c3_interests_queried_at_register_and_remove (m : Mediator) (s : St) :
    (mget s.mediatorMap m.name = none →
      (registerMediator m s).2.countP isQEv = 1 ∧
      mget (registerMediator m s).1.queries m.id =
        some ((mget s.queries m.id).getD 0 + 1)) ∧
    (∀ (nm : String) (m' : Mediator), mget s.mediatorMap nm = some m' →
      ∀ r : St × List Ev × Option Mediator, removeMediator nm s = some r →
        r.2.1.countP isQEv = 1 ∧
        r.2.1.countP (fun e => e == Ev.qInterests m'.id ((mget s.queries m'.id).getD 0)) = 1 ∧
        mget r.1.queries m'.id = some ((mget s.queries m'.id).getD 0 + 1)) := by
  constructor
  · intro hm
    rw [registerMediator_fresh m s hm]
    constructor
    · simp [isQEv, List.countP_cons]
    · by_cases hlen : (m.interests ((mget s.queries m.id).getD 0)).length > 0
      · rw [if_pos hlen]
        rw [(regObsList_fields _ _ _).2.2]
        exact mget_mset_self ..
      · rw [if_neg hlen]
        exact mget_mset_self ..
  · intro nm m' hm r h
    rw [removeMediator_found nm m' s hm] at h
    cases hr : removeObsList (m'.interests ((mget s.queries m'.id).getD 0)) (Ctx.obj m'.id)
        { s with queries := mset s.queries m'.id ((mget s.queries m'.id).getD 0 + 1) } with
    | none => rw [hr] at h; cases h
    | some s2 =>
      rw [hr] at h
      obtain rfl := Option.some.inj h
      refine ⟨by simp [isQEv, List.countP_cons], by simp [List.countP_cons], ?_⟩
      show mget ({ s2 with mediatorMap := mdel s2.mediatorMap nm } : St).queries m'.id = _
      have hq : s2.queries = mset s.queries m'.id ((mget s.queries m'.id).getD 0 + 1) :=
        (removeObsList_fields _ _ _ _ hr).2.2.2.1
      show mget s2.queries m'.id = _
      rw [hq]
      exact mget_mset_self ..

/-- Witness for the amended C3: mediator instance 0 named "M" with constant
interests `["a"]`, registered from the empty state and then removed — one
query each time, counter ending at 2. -/
theorem c3_interests_queried_witness :
    (mget initSt.mediatorMap "M" = none ∧
     ((registerMediator ⟨0, "M", fun _ => ["a"]⟩ initSt).2.countP isQEv = 1 ∧
      mget (registerMediator ⟨0, "M", fun _ => ["a"]⟩ initSt).1.queries 0 = some 1)) ∧
    (mget (St.mediatorMap
        ⟨[("M", ⟨0, "M", fun _ => ["a"]⟩)],
         [("a", [⟨Handler.mediate 0, Ctx.obj 0⟩])], [], [], [(0, 1)], 0⟩) "M" =
      some ⟨0, "M", fun _ => ["a"]⟩ ∧
     removeMediator "M"
        ⟨[("M", ⟨0, "M", fun _ => ["a"]⟩)],
         [("a", [⟨Handler.mediate 0, Ctx.obj 0⟩])], [], [], [(0, 1)], 0⟩ =
      some (⟨[], [], [], [], [(0, 2)], 0⟩, [Ev.qInterests 0 1, Ev.mRem 0],
        some ⟨0, "M", fun _ => ["a"]⟩) ∧
     (([Ev.qInterests 0 1, Ev.mRem 0] : List Ev).countP isQEv = 1 ∧
      ([Ev.qInterests 0 1, Ev.mRem 0] : List Ev).countP
        (fun e => e == Ev.qInterests 0 1) = 1 ∧
      mget ([(0, 2)] : List (Nat × Nat)) 0 = some 2)) :=
  ⟨⟨rfl, (c3_interests_queried_at_register_and_remove ⟨0, "M", fun _ => ["a"]⟩ initSt).1 rfl⟩,
   ⟨rfl, rfl,
    (c3_interests_queried_at_register_and_remove ⟨0, "M", fun _ => ["a"]⟩
        ⟨[("M", ⟨0, "M", fun _ => ["a"]⟩)],
         [("a", [⟨Handler.mediate 0, Ctx.obj 0⟩])], [], [], [(0, 1)], 0⟩).2
      "M" ⟨0, "M", fun _ => ["a"]⟩ rfl
      (⟨[], [], [], [], [(0, 2)], 0⟩, [Ev.qInterests 0 1, Ev.mRem 0],
        some ⟨0, "M", fun _ => ["a"]⟩) rfl⟩⟩

/-- Splicing out the first context match keeps a sublist of the original. -/
theorem removeFirst_subset (c : Ctx) (l : List Observer) (o : Observer)
    (h : o ∈ removeFirst c l) : o ∈ l := by
  induction l with
  | nil => simp [removeFirst] at h
  | cons o₀ rest ih =>
    simp only [removeFirst] at h
    split at h
    · exact List.mem_cons_of_mem _ h
    · rcases List.mem_cons.mp h with h1 | h1
      · rw [h1]
        exact List.mem_cons_self ..
      · exact List.mem_cons_of_mem _ (ih h1)

/-- If a list holds at most one observer for a context, none is left for that
context after the first-match splice. -/
theorem removeFirst_no_match (c : Ctx) (l : List Observer)
    (h : l.countP (fun o => compareNotifyContext o c) ≤ 1) :
    ∀ o ∈ removeFirst c l, compareNotifyContext o c = false := by
  induction l with
  | nil => intro o ho; simp [removeFirst] at ho
  | cons o₀ rest ih =>
    intro o ho
    simp only [removeFirst] at ho
    by_cases h₀ : compareNotifyContext o₀ c = true
    · rw [if_pos h₀] at ho
      have hc : rest.countP (fun o => compareNotifyContext o c) = 0 := by
        rw [List.countP_cons, if_pos h₀] at h
        omega
      have := List.countP_eq_zero.mp hc o ho
      simpa using this
    · rw [if_neg h₀] at ho
      rcases List.mem_cons.mp ho with h1 | h1
      · rw [h1]
        simpa using h₀
      · refine ih ?_ o h1
        rw [List.countP_cons, if_neg h₀] at h
        omega

/-- Closed form of a successful `View.removeObserver` on a present key. -/
theorem removeObserver_hit (n : String) (c : Ctx) (s : St) (l : List Observer)
    (hm : mget s.observerMap n = some l) :
    removeObserver n c s =
      some (if (removeFirst c l).length = 0 then
        { s with observerMap := mdel s.observerMap n }
      else
        { s with observerMap := mset s.observerMap n (removeFirst c l) }) := by
  by_cases h0 : (removeFirst c l).length = 0 <;> simp [removeObserver, hm, h0]

/-- `View.removeObserver` leaves every other name's list alone. -/
theorem removeObserver_mget_ne (n : String) (c : Ctx) (s s' : St) (j : String)
    (h : removeObserver n c s = some s') (hj : j ≠ n) :
    mget s'.observerMap j = mget s.observerMap j := by
  cases hm : mget s.observerMap n with
  | none => simp [removeObserver, hm] at h
  | some l =>
    rw [removeObserver_hit n c s l hm] at h
    obtain rfl := Option.some.inj h
    by_cases h0 : (removeFirst c l).length = 0
    · rw [if_pos h0]
      exact mget_mdel_ne _ _ _ hj
    · rw [if_neg h0]
      exact mget_mset_ne _ _ _ _ hj

/-- `View.removeObserver` keeps the observer-map keys duplicate-free. -/
theorem removeObserver_keysND (n : String) (c : Ctx) (s s' : St)
    (h : removeObserver n c s = some s') (hk : keysND s.observerMap) :
    keysND s'.observerMap := by
  cases hm : mget s.observerMap n with
  | none => simp [removeObserver, hm] at h
  | some l =>
    rw [removeObserver_hit n c s l hm] at h
    obtain rfl := Option.some.inj h
    by_cases h0 : (removeFirst c l).length = 0
    · rw [if_pos h0]
      exact keysND_mdel _ _ hk
    · rw [if_neg h0]
      exact keysND_mset _ _ _ hk

/-- After `View.removeObserver` the name's list is gone or spliced. -/
theorem removeObserver_mget_self (n : String) (c : Ctx) (s s' : St) (l : List Observer)
    (h : removeObserver n c s = some s') (hm : mget s.observerMap n = some l)
    (hk : keysND s.observerMap) :
    mget s'.observerMap n = none ∨ mget s'.observerMap n = some (removeFirst c l) := by
  rw [removeObserver_hit n c s l hm] at h
  obtain rfl := Option.some.inj h
  by_cases h0 : (removeFirst c l).length = 0
  · left
    rw [if_pos h0]
    exact mget_mdel_self _ _ hk
  · right
    rw [if_neg h0]
    exact mget_mset_self ..

/-- The interest-removal loop leaves lists of names outside it alone. -/
theorem removeObsList_mget_not_mem (c : Ctx) (names : List String) :
    ∀ s s' : St, removeObsList names c s = some s' → ∀ j, j ∉ names →
      mget s'.observerMap j = mget s.observerMap j := by
  induction names with
  | nil =>
    intro s s' h j hj
    obtain rfl := Option.some.inj h
    rfl
  | cons nm rest ih =>
    intro s s' h j hj
    cases hr : removeObserver nm c s with
    | none => simp [removeObsList, hr] at h
    | some s₁ =>
      simp only [removeObsList, hr] at h
      have hj1 : j ∉ rest := fun hh => hj (List.mem_cons_of_mem _ hh)
      have hjn : j ≠ nm := fun hh => hj (hh ▸ List.mem_cons_self nm rest)
      rw [ih s₁ s' h j hj1, removeObserver_mget_ne nm c s s₁ j hr hjn]

/-- The removal loop of `removeMediator`, run over duplicate-free names whose
lists each hold at most one observer for the context (and whose observers
for the handler all carry that context), completes and leaves no observer
for the context or the handler under any of the names. -/
theorem removeObsList_clears (c : Ctx) (hd : Handler) (names : List String) :
    ∀ s : St, names.Nodup → keysND s.observerMap →
      (∀ i ∈ names, ∃ l, mget s.observerMap i = some l ∧
        l.countP (fun o => compareNotifyContext o c) ≤ 1 ∧
        (∀ o ∈ l, o.notify = hd → o.context = c)) →
      ∃ s' : St, removeObsList names c s = some s' ∧
        keysND s'.observerMap ∧
        (∀ i ∈ names, ∀ o ∈ obsListD s' i,
          compareNotifyContext o c = false ∧ o.notify ≠ hd) := by
  induction names with
  | nil =>
    intro s _ hk _
    exact ⟨s, rfl, hk, by simp⟩
  | cons nm rest ih =>
    intro s hnd hk hin
    obtain ⟨l, hl, hcnt, hhd⟩ := hin nm (List.mem_cons_self nm rest)
    have hstep := removeObserver_hit nm c s l hl
    set s₁ := if (removeFirst c l).length = 0 then
        { s with observerMap := mdel s.observerMap nm }
      else
        { s with observerMap := mset s.observerMap nm (removeFirst c l) } with hs₁
    have hk₁ : keysND s₁.observerMap := removeObserver_keysND nm c s s₁ hstep hk
    have hnm : nm ∉ rest := (List.nodup_cons.mp hnd).1
    have hrest : rest.Nodup := (List.nodup_cons.mp hnd).2
    have hin₁ : ∀ i ∈ rest, ∃ l', mget s₁.observerMap i = some l' ∧
        l'.countP (fun o => compareNotifyContext o c) ≤ 1 ∧
        (∀ o ∈ l', o.notify = hd → o.context = c) := by
      intro i hi
      have hine : i ≠ nm := fun hh => hnm (hh ▸ hi)
      rw [removeObserver_mget_ne nm c s s₁ i hstep hine]
      exact hin i (List.mem_cons_of_mem _ hi)
    obtain ⟨s', hrun, hk', hclear⟩ := ih s₁ hrest hk₁ hin₁
    refine ⟨s', ?_, hk', ?_⟩
    · simp only [removeObsList, hstep]
      exact hrun
    · intro i hi o ho
      rcases List.mem_cons.mp hi with h1 | h1
      · subst h1
        have hpersist : mget s'.observerMap i = mget s₁.observerMap i :=
          removeObsList_mget_not_mem c rest s₁ s' hrun i hnm
        rcases removeObserver_mget_self i c s s₁ l hstep hl hk with hnone | hsome
        · rw [obsListD, hpersist, hnone] at ho
          simp at ho
        · rw [obsListD, hpersist, hsome] at ho
          simp only [Option.getD_some] at ho
          have hnomatch := removeFirst_no_match c l hcnt o ho
          refine ⟨hnomatch, fun hh => ?_⟩
          have := hhd o (removeFirst_subset c l o ho) hh
          rw [compareNotifyContext, this] at hnomatch
          simp at hnomatch
      · exact hclear i h1 o ho

/-- `Controller.executeCommand` never emits a mediator handling event. -/
theorem executeCommand_no_handled (note : String) (s : St) (mid : Nat) :
    ∀ e ∈ (executeCommand note s).2, e ≠ Ev.handled mid note := by
  cases hc : mget s.commandMap note with
  | none => simp [executeCommand, hc]
  | some f => simp [executeCommand, hc]

/-- A broadcast over observers none of which is bound to the given mediator
never emits a handling event for it. -/
theorem notifyList_no_handled (note : String) (mid : Nat) (l : List Observer) :
    ∀ s : St, (∀ o ∈ l, o.notify ≠ Handler.mediate mid) →
      ∀ e ∈ (notifyList (stdDispatch note) l s).2.1, e ≠ Ev.handled mid note := by
  induction l with
  | nil =>
    intro s _ e he
    simp [notifyList] at he
  | cons o rest ih =>
    intro s h e he
    simp only [notifyList] at he
    rcases List.mem_append.mp he with he | he
    · cases hn : o.notify with
      | execCmd =>
        have hd : stdDispatch note o s = executeCommand note s := by
          simp [stdDispatch, hn]
        rw [hd] at he
        exact executeCommand_no_handled note s mid e he
      | mediate m' =>
        have hd : stdDispatch note o s = (s, [Ev.handled m' note]) := by
          simp [stdDispatch, hn]
        rw [hd] at he
        have hne : m' ≠ mid := fun hh =>
          h o (List.mem_cons_self o rest) (by rw [hn, hh])
        simp only [List.mem_singleton] at he
        rw [he]
        intro hcontra
        exact hne (by injection hcontra)
    · exact ih ((stdDispatch note o s).1) (fun o' ho' => h o' (List.mem_cons_of_mem _ ho')) e he

/-- C4: `View.removeMediator` of an unregistered name returns null and
changes nothing; on a registered mediator (with its fixed, duplicate-free
declared interests, each with a present observer list holding at most one
observer for the mediator's context, every observer on its handler carrying
that context) it removes the mediator's observer from every declared
interest's list, deletes the name from the mediator map, emits `onRemove`
exactly once, returns the removed instance, and a later broadcast of any of
the interests no longer invokes the removed mediator's handler. -/
theorem c4_remove_mediator (nm : String) (s : St) (m : Mediator)
    (hm : mget s.mediatorMap nm = some m)
    (hconst : ∀ k, m.interests k = m.interests 0)
    (hnodupI : (m.interests 0).Nodup)
    (hkO : keysND s.observerMap)
    (hkM : keysND s.mediatorMap)
    (hobs : ∀ i ∈ m.interests 0, ∃ l, mget s.observerMap i = some l ∧
      l.countP (fun o => compareNotifyContext o (Ctx.obj m.id)) ≤ 1 ∧
      (∀ o ∈ l, o.notify = Handler.mediate m.id → o.context = Ctx.obj m.id)) :
    (∀ s₀ : St, mget s₀.mediatorMap nm = none → removeMediator nm s₀ = some (s₀, [], none)) ∧
    ∃ (s' : St) (evs : List Ev), removeMediator nm s = some (s', evs, some m) ∧
      mget s'.mediatorMap nm = none ∧
      evs.countP (fun e => e == Ev.mRem m.id) = 1 ∧
      (∀ i ∈ m.interests 0, ∀ e ∈ (broadcast i s').2.1, e ≠ Ev.handled m.id i) := by
  constructor
  · intro s₀ h₀
    simp [removeMediator, h₀]
  · have hq : m.interests ((mget s.queries m.id).getD 0) = m.interests 0 := hconst _
    obtain ⟨s2, hrun, hk2, hclear⟩ :=
      removeObsList_clears (Ctx.obj m.id) (Handler.mediate m.id) (m.interests 0)
        { s with queries := mset s.queries m.id ((mget s.queries m.id).getD 0 + 1) }
        hnodupI hkO hobs
    have hfound := removeMediator_found nm m s hm
    rw [hq, hrun] at hfound
    refine ⟨{ s2 with mediatorMap := mdel s2.mediatorMap nm },
      [Ev.qInterests m.id ((mget s.queries m.id).getD 0), Ev.mRem m.id], hfound, ?_, ?_, ?_⟩
    · have hmm : s2.mediatorMap = s.mediatorMap :=
        (removeObsList_fields _ _ _ _ hrun).1
      show mget (mdel s2.mediatorMap nm) nm = none
      rw [hmm]
      exact mget_mdel_self _ _ hkM
    · simp [List.countP_cons]
    · intro i hi e he
      have hOM : mget ({ s2 with mediatorMap := mdel s2.mediatorMap nm } : St).observerMap i =
          mget s2.observerMap i := rfl
      cases hgi : mget s2.observerMap i with
      | none =>
        rw [broadcast, notifyObservers] at he
        rw [hOM, hgi] at he
        simp at he
      | some l =>
        rw [broadcast, notifyObservers] at he
        rw [hOM, hgi] at he
        refine notifyList_no_handled i m.id l _ ?_ e he
        intro o ho
        have := hclear i hi o (by rw [obsListD, hgi]; exact ho)
        exact this.2

/-- Witness for C4: mediator instance 0 named "M" with constant interests
`["a"]`, registered alone; removal succeeds, empties the maps, emits one
`onRemove`, and a later broadcast of "a" emits nothing for it. -/
theorem c4_remove_mediator_witness :
    mget (St.mediatorMap
        ⟨[("M", ⟨0, "M", fun _ => ["a"]⟩)],
         [("a", [⟨Handler.mediate 0, Ctx.obj 0⟩])], [], [], [(0, 1)], 0⟩) "M" =
      some ⟨0, "M", fun _ => ["a"]⟩ ∧
    (∀ s₀ : St, mget s₀.mediatorMap "M" = none → removeMediator "M" s₀ = some (s₀, [], none)) ∧
    (∃ (s' : St) (evs : List Ev),
      removeMediator "M"
          ⟨[("M", ⟨0, "M", fun _ => ["a"]⟩)],
           [("a", [⟨Handler.mediate 0, Ctx.obj 0⟩])], [], [], [(0, 1)], 0⟩ =
        some (s', evs, some ⟨0, "M", fun _ => ["a"]⟩) ∧
      mget s'.mediatorMap "M" = none ∧
      evs.countP (fun e => e == Ev.mRem 0) = 1 ∧
      (∀ i ∈ (["a"] : List String), ∀ e ∈ (broadcast i s').2.1, e ≠ Ev.handled 0 i)) :=
  ⟨rfl,
   (c4_remove_mediator "M"
      ⟨[("M", ⟨0, "M", fun _ => ["a"]⟩)],
       [("a", [⟨Handler.mediate 0, Ctx.obj 0⟩])], [], [], [(0, 1)], 0⟩
      ⟨0, "M", fun _ => ["a"]⟩ rfl (fun _ => rfl) (by decide) (by simp [keysND]) (by simp [keysND])
      (by
        intro i hi
        have : i = "a" := by simpa using hi
        subst this
        exact ⟨[⟨Handler.mediate 0, Ctx.obj 0⟩], rfl, by decide, by decide⟩)).1,
   (c4_remove_mediator "M"
      ⟨[("M", ⟨0, "M", fun _ => ["a"]⟩)],
       [("a", [⟨Handler.mediate 0, Ctx.obj 0⟩])], [], [], [(0, 1)], 0⟩
      ⟨0, "M", fun _ => ["a"]⟩ rfl (fun _ => rfl) (by decide) (by simp [keysND]) (by simp [keysND])
      (by
        intro i hi
        have : i = "a" := by simpa using hi
        subst this
        exact ⟨[⟨Handler.mediate 0, Ctx.obj 0⟩], rfl, by decide, by decide⟩)).2⟩

end PureMVC
